import Mathlib

/-!
Verification of the process-launch subsystem of `dbus-launch-rs`
(`src/process.rs`, `src/sys.rs`, `src/pipe.rs`) against its design
specification.

The Rust code is shallowly embedded: syscall results (fork, waitpid, kill,
poll, fcntl, signal, exec, pipe reads) are supplied as explicit oracle
arguments, and each source function becomes a pure Lean function of its
inputs and those oracles.  Machine integers are modelled as `Nat`/`Int`
with explicit `% 2^32` where the code truncates; native endianness is
fixed to little-endian, consistently on both the encoding (child) and
decoding (parent) side, which is faithful because both run on the same
machine.
-/

namespace DbusLaunch

/-! ### Error-channel byte encoding (`process.rs` lines 187-188, 201)

The child encodes `error.raw_os_error().unwrap_or(libc::EINVAL) as u32`
with `u32::to_ne_bytes`; the parent decodes with `i32::from_ne_bytes`. -/

/-- Linux value of `libc::EINVAL`. -/
def EINVAL : Nat := 22

/-- Linux value of `libc::EBADF`. -/
def EBADF : Nat := 9

/-- The 4 native-endian (little-endian) bytes of `x` truncated to 32
bits: `(x as u32).to_ne_bytes()`. -/
def u32NeBytes (x : Nat) : List Nat :=
  [x % 256, x / 256 % 256, x / 65536 % 256, x / 16777216 % 256]

/-- Value of a little-endian byte list, least-significant byte first. -/
def leNat : List Nat → Nat
  | [] => 0
  | b :: rest => b % 256 + 256 * leNat rest

/-- Reinterpretation of 4 native-endian bytes as a signed 32-bit
integer in two's complement: `i32::from_ne_bytes`. -/
def decodeI32 (bs : List Nat) : Int :=
  let n := leNat bs
  if n < 2 ^ 31 then (n : Int) else (n : Int) - 2 ^ 32

/-- A `std::io::Error` as observed through `raw_os_error()`: it either
carries a raw OS error code or does not (e.g. a formatting error from
`write!` into a fixed buffer). -/
structure RErr where
  raw : Option Nat
deriving DecidableEq, Repr

/-- The 4-byte error-channel message written by the child
(`process.rs` lines 187-188):
`error.raw_os_error().unwrap_or(libc::EINVAL) as u32` in native-endian
bytes. -/
def encodeErr (e : RErr) : List Nat :=
  u32NeBytes (e.raw.getD EINVAL)

/-! ### Process handle (`process.rs` lines 15-160)

`Process` holds the child pid and the exit-status cache.  An
`ExitStatus` is modelled by its raw `waitpid` status word (a `Nat`),
matching `ExitStatus::from_raw`. -/

structure Process where
  pid : Int
  exit_status : Option Nat
deriving DecidableEq, Repr

/-- Outcome of a blocking `libc::waitpid(pid, &status, 0)` call:
`-1` with an errno, or a raw status word. -/
inductive WaitRes where
  | err (e : Nat)
  | status (s : Nat)
deriving DecidableEq, Repr

/-- Outcome of a non-blocking `libc::waitpid(pid, &status, WNOHANG)` call:
`-1` with an errno, `0` (still running), or the pid with a status word. -/
inductive TryWaitRes where
  | err (e : Nat)
  | running
  | exited (s : Nat)
deriving DecidableEq, Repr

/-- Outcome of `libc::kill(pid, signal)`: `some e` models `-1` with
errno `e`, `none` models success. -/
abbrev KillRes := Option Nat

/-- Model of `Process::kill` (`process.rs` lines 99-109): no-op when the exit
status is already cached, otherwise sends the signal and reports the OS
error on failure. -/
def Process.kill (p : Process) (os : KillRes) : Except Nat Unit × Process :=
  if p.exit_status.isSome then
    (.ok (), p)
  else
    match os with
    | some e => (.error e, p)
    | none => (.ok (), p)

/-- Model of `Process::wait` (`process.rs` lines 111-124): returns the cached
status immediately when set; otherwise performs a blocking `waitpid`
(whose outcome is the oracle `os`) and caches the obtained status.  The
final `Bool` records whether `waitpid` was invoked at all. -/
def Process.wait (p : Process) (os : WaitRes) :
    Except Nat Nat × Process × Bool :=
  match p.exit_status with
  | some s => (.ok s, p, false)
  | none =>
    match os with
    | .err e => (.error e, p, true)
    | .status s => (.ok s, { p with exit_status := some s }, true)

/-- Model of `Process::try_wait` (`process.rs` lines 126-142): returns the cached
status when set; otherwise performs a `WNOHANG` `waitpid` and caches a
freshly obtained status. -/
def Process.try_wait (p : Process) (os : TryWaitRes) :
    Except Nat (Option Nat) × Process :=
  match p.exit_status with
  | some s => (.ok (some s), p)
  | none =>
    match os with
    | .err e => (.error e, p)
    | .running => (.ok none, p)
    | .exited s => (.ok (some s), { p with exit_status := some s })

/-- One second, in nanoseconds: the fixed polling interval
`Duration::from_secs(1)` of `Process::try_wait_timeout`. -/
def ONE_SEC : Nat := 1000000000

/-- The loop body of `Process::try_wait_timeout` (`process.rs` lines
148-159).  On each iteration: `try_wait`; if it yields an error or a
status, return it at once; otherwise
`timeout.checked_sub(Duration::from_secs(1))` decides between sleeping
one second and looping with the reduced timeout, or sleeping the
remaining `timeout` and performing one final `try_wait`.  `checked_sub`
succeeds exactly when `ONE_SEC ≤ timeout`, i.e. exactly when
`timeout / ONE_SEC ≥ 1`; the structural argument `fuel` is that quotient
(the number of whole-second sleeps left), maintained by the recursion
since `(timeout - ONE_SEC) / ONE_SEC = timeout / ONE_SEC - 1` there, so
matching on `fuel` is the same test as `checked_sub`.  The oracle `os`
gives the outcome of the `n`-th `waitpid(WNOHANG)` call of this
invocation; the final `Nat` is the total time slept (nanoseconds). -/
def tryWaitTimeoutGo (p : Process) (os : Nat → TryWaitRes)
    (fuel timeout : Nat) : Except Nat (Option Nat) × Process × Nat :=
  let r := p.try_wait (os 0)
  match r.1 with
  | .error e => (.error e, r.2, 0)
  | .ok (some s) => (.ok (some s), r.2, 0)
  | .ok none =>
    match fuel with
    | fuel' + 1 =>
      let q := tryWaitTimeoutGo r.2 (fun n => os (n + 1)) fuel'
        (timeout - ONE_SEC)
      (q.1, q.2.1, ONE_SEC + q.2.2)
    | 0 =>
      let q := r.2.try_wait (os 1)
      (q.1, q.2, timeout)

/-- Model of `Process::try_wait_timeout` (`process.rs` lines 144-160): the polling
loop entered with the full timeout (in nanoseconds). -/
def Process.try_wait_timeout (p : Process) (os : Nat → TryWaitRes)
    (timeout : Nat) : Except Nat (Option Nat) × Process × Nat :=
  tryWaitTimeoutGo p os (timeout / ONE_SEC) timeout

/-! ### Write-end slot fixup before fork (`process.rs` lines 170-179)

If the error-channel write end was allocated at descriptor `<= 3`, the
code duplicates it with `fcntl(w, F_DUPFD_CLOEXEC, 4)` — which the OS
guarantees returns the lowest free descriptor `>= 4`, marked
close-on-exec — and then `assert!(fd > 3)`. -/

/-- Outcome of the write-end fixup: the descriptor used at fork time, or
an error return (from a failing `fcntl`), or a panic (from a failing
`assert!`). -/
inductive FixResult where
  | ok (fd : Nat)
  | osError
  | panicked
deriving DecidableEq, Repr

/-- Pre-fork write-end fixup of `spawn` (`process.rs` lines 170-179).
`dupCloexec` is the result of `fcntl(w, F_DUPFD_CLOEXEC, 4)`: `none`
models `-1`, `some fd` models a returned descriptor. -/
def fixWriteEnd (w : Nat) (dupCloexec : Option Nat) : FixResult :=
  if w ≤ 3 then
    match dupCloexec with
    | none => .osError
    | some fd => if 3 < fd then .ok fd else .panicked
  else .ok w

/-! ### Parent-side handshake (`process.rs` lines 191-208)

After fork the parent drops its copy of the write end and calls
`r.read_exact(&mut [0u8; 4])`.  The handshake is a function of the byte
stream the read end delivers before end-of-file: `read_exact` fills the
buffer when at least 4 bytes arrive, and returns an
`ErrorKind::UnexpectedEof` error whenever EOF is hit first — whether 0,
1, 2 or 3 bytes were read.  The `UnexpectedEof` arm returns `Ok(p)`;
any other read error hits `unreachable!()`. -/

/-- Result of `spawn` as seen by the caller: a live `Process` handle or
an `io::Error` built with `Error::from_raw_os_error` from the decoded
32-bit code. -/
inductive SpawnOutcome where
  | spawned (p : Process)
  | spawnErr (code : Int)
deriving DecidableEq, Repr

/-- The parent branch of `spawn` (`process.rs` lines 191-208) as a
function of the child pid, the byte stream available from the pipe's
read end before EOF, and the oracle for the reaping `waitpid` call.  The
returned `Bool` records whether the child was reaped (`let _ = p.wait()`
invoked `waitpid`). -/
def parentHandshake (pid : Int) (stream : List Nat) (waitOs : WaitRes) :
    SpawnOutcome × Bool :=
  let p : Process := { pid := pid, exit_status := none }
  if 4 ≤ stream.length then
    let code := decodeI32 (stream.take 4)
    let w := p.wait waitOs
    (.spawnErr code, w.2.2)
  else
    (.spawned p, false)

/-! ### Child path (`process.rs` lines 184-190, 211-243)

`try_exec` runs: reset each signal in
`[SIGCHLD, SIGINT, SIGTERM, SIGHUP, SIGPIPE]` to `SIG_DFL`, then
`close_on_exec_from(3)`, then the caller's `pre_exec` callback, then
`execvp`/`execvpe`.  It only returns if some step failed (exec included),
yielding that step's error.  The child branch of `spawn` then writes the
4-byte encoded error to the pipe and terminates with `_exit(1)` — a
non-returning exit that bypasses ordinary cleanup.  The child's
behaviour is modelled as the ordered trace of these actions. -/

/-- Observable actions of the child between fork and image
replacement/termination. -/
inductive ChildAction where
  | resetSignal (s : Nat)
  | hygiene (min : Nat)
  | preExec
  | exec
  | writeErr (bytes : List Nat)
  | exit (code : Nat)
deriving DecidableEq, Repr

/-- Signal numbers (Linux) of `SIGCHLD, SIGINT, SIGTERM, SIGHUP,
SIGPIPE` in the order `try_exec` resets them (`process.rs` lines
216-222). -/
def childSignals : List Nat := [17, 2, 15, 1, 13]

/-- Oracles for the child's syscalls: `signalRes s` is the errno when
`signal(s, SIG_DFL)` fails (else `none`); `hygieneRes` / `preExecRes`
are the errors returned by `close_on_exec_from(3)` / the `pre_exec`
callback (else `none`); `execErrno` is the errno when exec returns
(else `none`: the image was replaced and nothing below runs). -/
structure ChildOracle where
  signalRes : Nat → Option Nat
  hygieneRes : Option RErr
  preExecRes : Option RErr
  execErrno : Option Nat

/-- The `for &s in &[...] { if signal(s, SIG_DFL) == SIG_ERR { return ... } }`
loop of `try_exec`: trace of reset actions, stopping at the first
failure, whose errno is returned. -/
def resetSignals (sigRes : Nat → Option Nat) :
    List Nat → List ChildAction × Option Nat
  | [] => ([], none)
  | s :: rest =>
    match sigRes s with
    | some e => ([.resetSignal s], some e)
    | none =>
      let r := resetSignals sigRes rest
      (.resetSignal s :: r.1, r.2)

/-- How `try_exec` ends: the process image was replaced by a successful
exec, or some step failed with an error. -/
inductive TryExecOutcome where
  | execed
  | failed (e : RErr)
deriving DecidableEq, Repr

/-- Model of `try_exec` (`process.rs` lines 211-243): the ordered action trace
and the outcome. -/
def try_exec (o : ChildOracle) : List ChildAction × TryExecOutcome :=
  let r := resetSignals o.signalRes childSignals
  match r.2 with
  | some e => (r.1, .failed ⟨some e⟩)
  | none =>
    let tr := r.1 ++ [.hygiene 3]
    match o.hygieneRes with
    | some err => (tr, .failed err)
    | none =>
      let tr := tr ++ [.preExec]
      match o.preExecRes with
      | some err => (tr, .failed err)
      | none =>
        let tr := tr ++ [.exec]
        match o.execErrno with
        | none => (tr, .execed)
        | some e => (tr, .failed ⟨some e⟩)

/-- The child branch of `spawn` (`process.rs` lines 184-190): run
`try_exec`; if it returns (some step failed), encode the error with the
`EINVAL` fallback, write the 4 bytes into the error channel and
`_exit(1)`.  A successful exec replaces the image, so the trace ends at
the exec action. -/
def childAfterFork (o : ChildOracle) : List ChildAction :=
  let r := try_exec o
  match r.2 with
  | .execed => r.1
  | .failed e => r.1 ++ [.writeErr (encodeErr e), .exit 1]

/-! ### Descriptor hygiene (`sys.rs` lines 5-86)

The non-macOS `close_on_exec_from` queries `get_fd_limit()` once, then
scans descriptors `min..limit` in batches of at most 512: each batch is
probed with one `poll` call (timeout 0), and every descriptor whose
`revents` lacks `POLLNVAL` (i.e. the probe saw it open) gets
`set_close_on_exec(fd, true)?` — note the `?`: a failure there
propagates.  The macOS variant calls `set_close_on_exec(fd, true)` on
every descriptor in range and ignores `EBADF` failures.

Openness is modelled by two oracles capturing one interleaving with a
concurrent closer: `probeOpen fd` is the state `poll` observes,
`setOpen fd` the state the later `fcntl` observes.  The only modelled
failure of `set_close_on_exec` is `EBADF` on a closed descriptor, the
mode the claims are about. -/

/-- Model of `set_close_on_exec(fd, true)` (`sys.rs` lines 5-20) through
the openness oracle: `fcntl(fd, F_GETFD)` fails with `EBADF` when the
descriptor is closed, otherwise the flag is set successfully. -/
def set_close_on_exec (openNow : Nat → Bool) (fd : Nat) : Except Nat Unit :=
  if openNow fd then .ok () else .error EBADF

/-- The batches `[i, i+n)` with `n = min 512 (limit - i)` that the
non-macOS scan loop forms, starting at `i = min` (`sys.rs` lines
33-62). -/
def scanBatchesAux (limit : Nat) (i : Nat) : List (List Nat) :=
  if _h : i < limit then
    let n := min 512 (limit - i)
    List.range' i n :: scanBatchesAux limit (i + n)
  else
    []
termination_by limit - i
decreasing_by
  have h1 : 0 < min 512 (limit - i) := by
    refine Nat.lt_min.mpr ⟨by norm_num, by omega⟩
  omega

/-- All probe batches of a scan from `min` below `limit`. -/
def scanBatches (min limit : Nat) : List (List Nat) :=
  scanBatchesAux limit min

/-- The per-batch body of the non-macOS scan (`sys.rs` lines 55-59):
for each descriptor the `poll` probe reported open, set close-on-exec,
propagating any failure via `?`. -/
def applyBatch (probeOpen setOpen : Nat → Bool) :
    List Nat → Except Nat Unit
  | [] => .ok ()
  | fd :: rest =>
    if probeOpen fd then
      match set_close_on_exec setOpen fd with
      | .error e => .error e
      | .ok () => applyBatch probeOpen setOpen rest
    else
      applyBatch probeOpen setOpen rest

/-- Folds `applyBatch` over a batch list with early exit on error. -/
def applyBatches (probeOpen setOpen : Nat → Bool) :
    List (List Nat) → Except Nat Unit
  | [] => .ok ()
  | b :: rest =>
    match applyBatch probeOpen setOpen b with
    | .error e => .error e
    | .ok () => applyBatches probeOpen setOpen rest

/-- The non-macOS `close_on_exec_from` (`sys.rs` lines 25-65): batched
`poll` probing, then flag-setting with `?`-propagation.  `limit` is the
value `get_fd_limit()` returned from its single call at line 32. -/
def close_on_exec_from (min limit : Nat) (probeOpen setOpen : Nat → Bool) :
    Except Nat Unit :=
  applyBatches probeOpen setOpen (scanBatches min limit)

/-- The loop of the macOS `close_on_exec_from` (`sys.rs` lines 70-76):
a `set_close_on_exec` failure is ignored when its code is `EBADF` and
propagated otherwise. -/
def macosScanGo (openNow : Nat → Bool) : List Nat → Except Nat Unit
  | [] => .ok ()
  | fd :: rest =>
    match set_close_on_exec openNow fd with
    | .ok () => macosScanGo openNow rest
    | .error e => if e ≠ EBADF then .error e else macosScanGo openNow rest

/-- The macOS `close_on_exec_from` (`sys.rs` lines 69-78): a linear scan
of `min..limit` tolerating `EBADF`. -/
def close_on_exec_from_macos (min limit : Nat) (openNow : Nat → Bool) :
    Except Nat Unit :=
  macosScanGo openNow (List.range' min (limit - min))

/-! ## Helper lemmas -/

theorem scanBatchesAux_flatten_fuel :
    ∀ (fuel limit i : Nat), limit - i ≤ fuel →
      (scanBatchesAux limit i).flatten = List.range' i (limit - i) := by
  intro fuel
  induction fuel with
  | zero =>
    intro limit i h
    rw [scanBatchesAux]
    have hni : ¬ i < limit := by omega
    have hz : limit - i = 0 := by omega
    simp [hni, hz]
  | succ k ih =>
    intro limit i h
    rw [scanBatchesAux]
    by_cases hlt : i < limit
    · have hnpos : 0 < min 512 (limit - i) := by omega
      have hrec := ih limit (i + min 512 (limit - i)) (by omega)
      simp only [hlt, dif_pos, List.flatten_cons, hrec]
      have happ := List.range'_append i (min 512 (limit - i))
        (limit - (i + min 512 (limit - i))) 1
      simp only [one_mul] at happ
      rw [happ]
      congr 1
      omega
    · have hz : limit - i = 0 := by omega
      simp [hlt, hz]

theorem scanBatchesAux_length_fuel :
    ∀ (fuel limit i : Nat), limit - i ≤ fuel →
      (scanBatchesAux limit i).length = (limit - i + 511) / 512 := by
  intro fuel
  induction fuel with
  | zero =>
    intro limit i h
    rw [scanBatchesAux]
    have hni : ¬ i < limit := by omega
    have hz : limit - i = 0 := by omega
    simp [hni, hz]
  | succ k ih =>
    intro limit i h
    rw [scanBatchesAux]
    by_cases hlt : i < limit
    · have hnpos : 0 < min 512 (limit - i) := by omega
      have hrec := ih limit (i + min 512 (limit - i)) (by omega)
      simp only [hlt, dif_pos, List.length_cons, hrec]
      omega
    · have hz : limit - i = 0 := by omega
      simp [hlt, hz]

theorem scanBatchesAux_sizes_fuel :
    ∀ (fuel limit i : Nat), limit - i ≤ fuel →
      ∀ b ∈ scanBatchesAux limit i, b.length ≤ 512 := by
  intro fuel
  induction fuel with
  | zero =>
    intro limit i h b hb
    rw [scanBatchesAux] at hb
    have hni : ¬ i < limit := by omega
    simp [hni] at hb
  | succ k ih =>
    intro limit i h b hb
    rw [scanBatchesAux] at hb
    by_cases hlt : i < limit
    · simp only [hlt, dif_pos, List.mem_cons] at hb
      rcases hb with hb | hb
      · subst hb
        simp [List.length_range']
      · exact ih limit (i + min 512 (limit - i)) (by omega) b hb
    · simp [hlt] at hb

theorem applyBatch_ok (probe setO : Nat → Bool) :
    ∀ l, applyBatch probe setO l = .ok () →
      ∀ fd ∈ l, probe fd = true → setO fd = true := by
  intro l
  induction l with
  | nil => intro _ fd hfd; simp at hfd
  | cons x rest ih =>
    intro hok fd hfd hp
    rw [applyBatch] at hok
    rcases List.mem_cons.mp hfd with hfd | hfd
    · subst hfd
      simp only [hp, if_true, set_close_on_exec] at hok
      by_cases hs : setO fd = true
      · exact hs
      · simp [hs] at hok
    · by_cases hpx : probe x = true
      · simp only [hpx, if_true, set_close_on_exec] at hok
        by_cases hsx : setO x = true
        · simp only [hsx, if_true] at hok
          exact ih hok fd hfd hp
        · simp [hsx] at hok
      · simp only [hpx, if_false] at hok
        exact ih hok fd hfd hp

theorem applyBatches_ok (probe setO : Nat → Bool) :
    ∀ bs, applyBatches probe setO bs = .ok () →
      ∀ fd ∈ bs.flatten, probe fd = true → setO fd = true := by
  intro bs
  induction bs with
  | nil => intro _ fd hfd; simp at hfd
  | cons b rest ih =>
    intro hok fd hfd hp
    rw [applyBatches] at hok
    rcases hb : applyBatch probe setO b with e | u
    · simp [hb] at hok
    · cases u
      simp only [hb] at hok
      simp only [List.flatten_cons, List.mem_append] at hfd
      rcases hfd with hfd | hfd
      · exact applyBatch_ok probe setO b hb fd hfd hp
      · exact ih hok fd hfd hp

theorem macosGo_ok (openNow : Nat → Bool) :
    ∀ l, macosScanGo openNow l = .ok () := by
  intro l
  induction l with
  | nil => rfl
  | cons fd rest ih =>
    rw [macosScanGo, set_close_on_exec]
    by_cases hfd : openNow fd
    · simp [hfd, ih]
    · simp [hfd, ih, EBADF]

/-! ## Claims about the hygiene scan -/

/-- C9: the descriptor-hygiene scan queries the descriptor-count limit
once (the single `get_fd_limit()?` call at `sys.rs` line 32, whose value
is the `limit` parameter here) and then probes every descriptor number
from the minimum threshold up to but excluding that limit exactly once —
the concatenation of the probe batches is precisely the interval
`[min, limit)` — in batches of at most 512 descriptors per `poll` call,
so the scan performs exactly `⌈(limit − min)/512⌉` probe calls; the scan
is a total function, hence terminates. -/
theorem C9_scan_batched_complete (min limit : Nat) :
    (scanBatches min limit).flatten = List.range' min (limit - min) ∧
    (scanBatches min limit).length = (limit - min + 511) / 512 ∧
    ∀ b ∈ scanBatches min limit, b.length ≤ 512 := by
  refine ⟨scanBatchesAux_flatten_fuel (limit - min) limit min le_rfl,
    scanBatchesAux_length_fuel (limit - min) limit min le_rfl,
    scanBatchesAux_sizes_fuel (limit - min) limit min le_rfl⟩

/-- Witness for C9 at `min = 3`, `limit = 1027`: two batches covering
exactly the 1024 descriptors `3..1026`, each of size at most 512. -/
theorem C9_scan_batched_complete_witness :
    (scanBatches 3 1027).flatten = List.range' 3 (1027 - 3) ∧
    (scanBatches 3 1027).length = (1027 - 3 + 511) / 512 ∧
    ∀ b ∈ scanBatches 3 1027, b.length ≤ 512 :=
  C9_scan_batched_complete 3 1027

/-- C3 counterexample: take `min = 3`, `limit = 4`, a probe oracle that
reports descriptor 3 open (`poll` sets no `POLLNVAL`), and a flag-set
oracle under which descriptor 3 is closed by the time `fcntl` runs (the
claimed benign race).  The non-macOS `close_on_exec_from` returns
`Err(EBADF)` — it does NOT ignore the failure, contradicting the claim
that `close_on_exec_from` does not return an error for such a
descriptor. -/
theorem C3_counterexample :
    close_on_exec_from 3 4 (fun _ => true) (fun _ => false) =
      .error EBADF := by
  rw [close_on_exec_from, scanBatches, scanBatchesAux]
  norm_num
  rw [scanBatchesAux]
  norm_num
  rw [applyBatches, applyBatch]
  simp [set_close_on_exec]

/-- C3 amended: only the macOS variant of `close_on_exec_from` ignores a
descriptor found closed between probe and flag-set (it skips `EBADF`
failures and continues, never failing for such a descriptor); the
non-macOS batched variant propagates the flag-set failure with `?`, so
there the scan does return an error when a descriptor the probe reported
open is closed before the flag-set call. -/
theorem C3_amended_race_handling (min limit fd : Nat)
    (openNow probe setO : Nat → Bool)
    (h1 : min ≤ fd) (h2 : fd < limit)
    (hp : probe fd = true) (hs : setO fd = false) :
    close_on_exec_from_macos min limit openNow = .ok () ∧
    ∃ e, close_on_exec_from min limit probe setO = .error e := by
  constructor
  · rw [close_on_exec_from_macos]
    exact macosGo_ok openNow _
  · rcases hres : close_on_exec_from min limit probe setO with e | u
    · exact ⟨e, rfl⟩
    · exfalso
      cases u
      rw [close_on_exec_from] at hres
      have hmem : fd ∈ (scanBatches min limit).flatten := by
        rw [scanBatches,
          scanBatchesAux_flatten_fuel (limit - min) limit min le_rfl]
        exact List.mem_range'_1.mpr ⟨h1, by omega⟩
      have := applyBatches_ok probe setO _ hres fd hmem hp
      rw [hs] at this
      exact Bool.false_ne_true this

/-- Witness for the amended C3 at `min = 3`, `limit = 4`, descriptor 3
probed open but closed at flag-set time. -/
theorem C3_amended_race_handling_witness :
    close_on_exec_from_macos 3 4 (fun _ => true) = .ok () ∧
    ∃ e, close_on_exec_from 3 4 (fun _ => true) (fun _ => false) =
      .error e :=
  C3_amended_race_handling 3 4 3 (fun _ => true) (fun _ => true)
    (fun _ => false) (by norm_num) (by norm_num) rfl rfl

/-! ## Claims about the Process handle -/

/-- C6: the exit-status cache of a `Process` handle starts unset (see
`C1_parent_handshake`: a freshly spawned handle has `exit_status = none`),
is set at most once and never cleared or overwritten: once the status is
cached as `some s`, every operation — `kill`, `wait`, `try_wait`,
`try_wait_timeout` — leaves the cache at `some s`, and every query
returns exactly that cached value (without consulting the OS: the
returned results do not depend on the oracles). -/
theorem C6_cache_set_once (p : Process) (s : Nat) (killOs : KillRes)
    (waitOs : WaitRes) (twOs : TryWaitRes) (os : Nat → TryWaitRes)
    (d : Nat) (h : p.exit_status = some s) :
    p.kill killOs = (.ok (), p) ∧
    p.wait waitOs = (.ok s, p, false) ∧
    p.try_wait twOs = (.ok (some s), p) ∧
    p.try_wait_timeout os d = (.ok (some s), p, 0) := by
  refine ⟨?_, ?_, ?_, ?_⟩
  · simp [Process.kill, h]
  · simp [Process.wait, h]
  · simp [Process.try_wait, h]
  · rw [Process.try_wait_timeout, tryWaitTimeoutGo.eq_def]
    simp [Process.try_wait, h]

/-- Witness for C6 at the concrete handle `⟨5, some 0⟩`. -/
theorem C6_cache_set_once_witness :
    (⟨5, some 0⟩ : Process).kill none = (.ok (), ⟨5, some 0⟩) ∧
    (⟨5, some 0⟩ : Process).wait (.status 7) =
      (.ok 0, ⟨5, some 0⟩, false) ∧
    (⟨5, some 0⟩ : Process).try_wait .running =
      (.ok (some 0), ⟨5, some 0⟩) ∧
    (⟨5, some 0⟩ : Process).try_wait_timeout (fun _ => .running) 3 =
      (.ok (some 0), ⟨5, some 0⟩, 0) :=
  C6_cache_set_once ⟨5, some 0⟩ 0 none (.status 7) .running
    (fun _ => .running) 3 rfl

/-- C7: if `wait()` has returned successfully once with status `s`, a
second `wait()` call returns the identical status `s` immediately from
the cache: its `Bool` component is `false`, meaning the second call
never invokes the blocking `waitpid` — no further reap, no blocking —
and it leaves the handle unchanged. -/
theorem C7_wait_twice (p p' : Process) (os1 os2 : WaitRes) (s : Nat)
    (b : Bool) (h : p.wait os1 = (.ok s, p', b)) :
    p'.wait os2 = (.ok s, p', false) := by
  have hp' : p'.exit_status = some s := by
    rcases hc : p.exit_status with _ | t
    · cases os1 with
      | err e => simp [Process.wait, hc] at h
      | status t =>
        simp only [Process.wait, hc, Prod.mk.injEq, Except.ok.injEq] at h
        obtain ⟨h1, h2, h3⟩ := h
        rw [← h2]
        simp [h1]
    · simp only [Process.wait, hc, Prod.mk.injEq, Except.ok.injEq] at h
      obtain ⟨h1, h2, h3⟩ := h
      rw [← h2, hc, h1]
  simp [Process.wait, hp']

/-- Witness for C7: a first `wait` on `⟨5, none⟩` reaping status 3,
followed by a second `wait` that returns 3 from the cache. -/
theorem C7_wait_twice_witness :
    (⟨5, some 3⟩ : Process).wait (.status 9) =
      (.ok 3, ⟨5, some 3⟩, false) :=
  C7_wait_twice ⟨5, none⟩ ⟨5, some 3⟩ (.status 3) (.status 9) 3 true rfl

/-- C8: `try_wait_timeout(d)` on an already-exited process — status
cached, or the very first `waitpid(WNOHANG)` reaps it — returns that
status immediately, with zero time slept, regardless of `d`.  In
general the loop polls `try_wait` at the fixed interval `ONE_SEC`:
while `ONE_SEC ≤ d` it sleeps one second and continues on `d - ONE_SEC`,
and once `d < ONE_SEC` it sleeps the remaining `d` and performs one
final `try_wait`. -/
theorem C8_timeout_polling (p : Process) (os : Nat → TryWaitRes)
    (d s : Nat) :
    (p.exit_status = some s →
      p.try_wait_timeout os d = (.ok (some s), p, 0)) ∧
    (p.exit_status = none → os 0 = .exited s →
      p.try_wait_timeout os d =
        (.ok (some s), { pid := p.pid, exit_status := some s }, 0)) ∧
    (p.exit_status = none → os 0 = .running → ONE_SEC ≤ d →
      p.try_wait_timeout os d =
        ((p.try_wait_timeout (fun n => os (n + 1)) (d - ONE_SEC)).1,
         (p.try_wait_timeout (fun n => os (n + 1)) (d - ONE_SEC)).2.1,
         ONE_SEC +
           (p.try_wait_timeout (fun n => os (n + 1)) (d - ONE_SEC)).2.2)) ∧
    (p.exit_status = none → os 0 = .running → d < ONE_SEC →
      p.try_wait_timeout os d =
        ((p.try_wait (os 1)).1, (p.try_wait (os 1)).2, d)) := by
  have hpos : 0 < ONE_SEC := by rw [ONE_SEC]; omega
  refine ⟨?_, ?_, ?_, ?_⟩
  · intro h
    rw [Process.try_wait_timeout, tryWaitTimeoutGo.eq_def]
    simp [Process.try_wait, h]
  · intro hnone hos
    rw [Process.try_wait_timeout, tryWaitTimeoutGo.eq_def]
    simp [Process.try_wait, hnone, hos]
  · intro hnone hrun hd
    have hdiv : d / ONE_SEC = (d - ONE_SEC) / ONE_SEC + 1 :=
      Nat.div_eq_sub_div hpos hd
    rw [Process.try_wait_timeout, hdiv, tryWaitTimeoutGo.eq_def]
    simp [Process.try_wait, hnone, hrun, Process.try_wait_timeout]
  · intro hnone hrun hd
    have hz : d / ONE_SEC = 0 := Nat.div_eq_of_lt hd
    rw [Process.try_wait_timeout, hz, tryWaitTimeoutGo.eq_def]
    simp [Process.try_wait, hnone, hrun]

/-- Witness for C8: an uncached handle whose first `waitpid(WNOHANG)`
reaps status 7 returns immediately — zero sleep — for the timeout 123. -/
theorem C8_timeout_polling_witness :
    (⟨5, none⟩ : Process).try_wait_timeout (fun _ => .exited 7) 123 =
      (.ok (some 7), ⟨5, some 7⟩, 0) :=
  (C8_timeout_polling ⟨5, none⟩ (fun _ => .exited 7) 123 7).2.1 rfl rfl

/-! ## Claims about the parent handshake -/

/-- C1: the parent-side handshake has exactly the two normal outcomes.
When 4 bytes arrive on the error channel, `read_exact` reads exactly
those 4, they are decoded as a native-endian 32-bit OS error code, the
child is synchronously reaped (the `Bool` component: `let _ = p.wait()`
invoked `waitpid`), and that decoded error is returned.  When end-of-file
is reached with no bytes written, a live `Process` handle carrying the
child's pid (with an unset status cache) is returned and no reap occurs.
The final conjunct closes the loop with the child encoder: for every
ordinary (nonnegative 31-bit) error code the parent decodes exactly the
code the child wrote. -/
theorem C1_parent_handshake (pid : Int) (waitOs : WaitRes)
    (b0 b1 b2 b3 : Nat) (rest : List Nat) (e : Nat) (he : e < 2 ^ 31) :
    parentHandshake pid (b0 :: b1 :: b2 :: b3 :: rest) waitOs =
      (.spawnErr (decodeI32 [b0, b1, b2, b3]), true) ∧
    parentHandshake pid [] waitOs = (.spawned ⟨pid, none⟩, false) ∧
    decodeI32 (u32NeBytes e) = (e : Int) := by
  refine ⟨?_, ?_, ?_⟩
  · have hlen : 4 ≤ (b0 :: b1 :: b2 :: b3 :: rest).length := by
      simp
    rw [parentHandshake]
    simp only [hlen, if_true]
    cases waitOs <;> simp [Process.wait]
  · rw [parentHandshake]
    simp
  · have hle : leNat (u32NeBytes e) = e := by
      simp [u32NeBytes, leNat]
      omega
    simp only [decodeI32, hle]
    rw [if_pos he]

/-- Witness for C1 at pid 42, the 4-byte message `[1,0,0,0]`, and the
empty (EOF) stream. -/
theorem C1_parent_handshake_witness :
    parentHandshake 42 [1, 0, 0, 0] (.status 9) =
      (.spawnErr (decodeI32 [1, 0, 0, 0]), true) ∧
    parentHandshake 42 [] (.status 9) = (.spawned ⟨42, none⟩, false) ∧
    decodeI32 (u32NeBytes 1) = (1 : Int) :=
  C1_parent_handshake 42 (.status 9) 1 0 0 0 [] 1 (by norm_num)

/-- C2 counterexample: a partial read — one byte, then end-of-file —
does NOT make the launch fail.  `read_exact` reports it as
`ErrorKind::UnexpectedEof`, exactly like a clean zero-byte EOF, and the
`UnexpectedEof` arm returns `Ok(p)`: a live `Process` handle is
returned, contradicting the claim that a partial read then EOF is
treated as a fatal protocol violation and never yields a handle. -/
theorem C2_counterexample :
    parentHandshake 42 [7] (.status 0) = (.spawned ⟨42, none⟩, false) :=
  rfl

/-- C2 amended: a partial read (1-3 bytes) followed by end-of-file is
indistinguishable, through `read_exact`, from a clean zero-byte EOF:
both surface as `ErrorKind::UnexpectedEof`, which `spawn` maps to
success, so the launch silently returns a live `Process` handle in that
case too; only a read error other than `UnexpectedEof` reaches the fatal
`unreachable!()` path. -/
theorem C2_amended_partial_read (pid : Int) (stream : List Nat)
    (waitOs : WaitRes) (h : stream.length < 4) :
    parentHandshake pid stream waitOs = (.spawned ⟨pid, none⟩, false) := by
  have hn : ¬ 4 ≤ stream.length := by omega
  rw [parentHandshake]
  simp [hn]

/-- Witness for the amended C2: the one-byte stream `[7]`. -/
theorem C2_amended_partial_read_witness :
    parentHandshake 43 [7] (.status 1) = (.spawned ⟨43, none⟩, false) :=
  C2_amended_partial_read 43 [7] (.status 1) (by norm_num)

/-- C5: before forking, if the error channel's write end sits at the
reserved hand-off slot (descriptor 3, or below it), it is duplicated via
`fcntl(w, F_DUPFD_CLOEXEC, 4)` onto a free close-on-exec descriptor
(the OS contract `hOS`: the result is at least the requested minimum 4),
so whenever the fixup produces a descriptor it is strictly greater
than 3; in particular on a collision (`w = 3`) the duplicate is used. -/
theorem C5_slot_collision (w f fd : Nat) (dup : Option Nat)
    (hOS : ∀ g, dup = some g → 4 ≤ g) :
    (fixWriteEnd w dup = .ok f → 3 < f) ∧
    (w = 3 → dup = some fd → fixWriteEnd w dup = .ok fd) := by
  constructor
  · intro hok
    rw [fixWriteEnd.eq_def] at hok
    by_cases hw : w ≤ 3
    · rcases dup with _ | g
      · simp [hw] at hok
      · have h4 : 4 ≤ g := hOS g rfl
        have h3 : 3 < g := by omega
        simp [hw, h3] at hok
        omega
    · simp [hw] at hok
      omega
  · intro hw3 hdup
    subst hw3
    subst hdup
    have h4 : 4 ≤ fd := hOS fd rfl
    rw [fixWriteEnd.eq_def]
    simp [show 3 < fd by omega]

/-- Witness for C5: the write end lands on descriptor 3 and
`F_DUPFD_CLOEXEC` returns 4. -/
theorem C5_slot_collision_witness :
    (fixWriteEnd 3 (some 4) = .ok 4 → 3 < 4) ∧
    (3 = 3 → some 4 = some 4 → fixWriteEnd 3 (some 4) = .ok 4) :=
  C5_slot_collision 3 4 4 (some 4)
    (by intro g hg; injection hg with h; omega)

/-! ## Claims about the child path -/

theorem resetSignals_prefix (f : Nat → Option Nat) :
    ∀ sigs, (resetSignals f sigs).1 <+: sigs.map ChildAction.resetSignal := by
  intro sigs
  induction sigs with
  | nil => simp [resetSignals]
  | cons s rest ih =>
    rw [resetSignals]
    rcases hf : f s with _ | e
    · simp only [hf, List.map_cons]
      exact List.cons_prefix_cons.mpr ⟨rfl, ih⟩
    · simp only [hf, List.map_cons]
      exact List.cons_prefix_cons.mpr ⟨rfl, List.nil_prefix⟩

theorem resetSignals_none_fst (f : Nat → Option Nat) :
    ∀ sigs, (resetSignals f sigs).2 = none →
      (resetSignals f sigs).1 = sigs.map ChildAction.resetSignal := by
  intro sigs
  induction sigs with
  | nil => intro _; simp [resetSignals]
  | cons s rest ih =>
    rw [resetSignals]
    rcases hf : f s with _ | e
    · simp only [hf]
      intro h
      simp [ih h]
    · simp only [hf]
      intro h
      cases h

theorem resetSignals_all_none (f : Nat → Option Nat) :
    ∀ sigs, (∀ s ∈ sigs, f s = none) →
      resetSignals f sigs = (sigs.map ChildAction.resetSignal, none) := by
  intro sigs
  induction sigs with
  | nil => intro _; simp [resetSignals]
  | cons s rest ih =>
    intro h
    have hs : f s = none := h s (List.mem_cons_self s rest)
    have hrest := ih (fun t ht => h t (List.mem_cons_of_mem s ht))
    rw [resetSignals]
    simp [hs, hrest]

/-- C4: after fork the child performs, in this exact order, the reset of
each signal in `[SIGCHLD, SIGINT, SIGTERM, SIGHUP, SIGPIPE]` to its
default disposition, the descriptor-hygiene scan from threshold 3, the
caller's pre-exec callback (exactly once: it occurs exactly once in the
trace), and exec: the trace is always a prefix of that canonical
sequence, and is the full sequence whenever every step before exec
succeeds, with exec replacing the image iff it does not fail.  And on
any step failure the child appends exactly two further actions: writing
the failing error's 4-byte native-endian code into the error channel,
then the non-returning `_exit(1)` that bypasses ordinary cleanup; a
successful exec appends nothing. -/
theorem C4_child_order (o : ChildOracle) (e : RErr) :
    ((try_exec o).1 <+:
      childSignals.map ChildAction.resetSignal ++
        [.hygiene 3, .preExec, .exec]) ∧
    ((∀ s ∈ childSignals, o.signalRes s = none) → o.hygieneRes = none →
      o.preExecRes = none →
      (try_exec o).1 =
        childSignals.map ChildAction.resetSignal ++
          [.hygiene 3, .preExec, .exec] ∧
      ((try_exec o).2 = .execed ↔ o.execErrno = none)) ∧
    ((try_exec o).2 = .failed e →
      childAfterFork o =
        (try_exec o).1 ++ [.writeErr (encodeErr e), .exit 1] ∧
      (encodeErr e).length = 4) ∧
    ((try_exec o).2 = .execed → childAfterFork o = (try_exec o).1) := by
  refine ⟨?_, ?_, ?_, ?_⟩
  · rcases hrs : resetSignals o.signalRes childSignals with ⟨tr, r2⟩
    have hpre : tr <+: childSignals.map ChildAction.resetSignal := by
      have h := resetSignals_prefix o.signalRes childSignals
      rw [hrs] at h
      exact h
    rcases r2 with _ | e0
    · have hfst : tr = childSignals.map ChildAction.resetSignal := by
        have h := resetSignals_none_fst o.signalRes childSignals
          (by rw [hrs])
        rw [hrs] at h
        exact h
      subst hfst
      rcases hh : o.hygieneRes with _ | err
      · rcases hp : o.preExecRes with _ | err
        · rcases hx : o.execErrno with _ | ec
          · simp only [try_exec, hrs, hh, hp, hx]
            exact ⟨[], by simp⟩
          · simp only [try_exec, hrs, hh, hp, hx]
            exact ⟨[], by simp⟩
        · simp only [try_exec, hrs, hh, hp]
          exact ⟨[.exec], by simp⟩
      · simp only [try_exec, hrs, hh]
        exact ⟨[.preExec, .exec], by simp⟩
    · simp only [try_exec, hrs]
      exact hpre.trans (List.prefix_append _ _)
  · intro hsig hhyg hpre
    have hall := resetSignals_all_none o.signalRes childSignals hsig
    constructor
    · rcases hx : o.execErrno with _ | ec <;>
        simp [try_exec, hall, hhyg, hpre, hx]
    · rcases hx : o.execErrno with _ | ec <;>
        simp [try_exec, hall, hhyg, hpre, hx]
  · intro hfail
    constructor
    · simp only [childAfterFork, hfail]
    · simp [encodeErr, u32NeBytes]
  · intro hexec
    simp only [childAfterFork, hexec]

/-- Witness for C4: an all-success oracle runs the full canonical
sequence and execs. -/
theorem C4_child_order_witness :
    (try_exec ⟨fun _ => none, none, none, none⟩).1 =
      childSignals.map ChildAction.resetSignal ++
        [.hygiene 3, .preExec, .exec] ∧
    ((try_exec ⟨fun _ => none, none, none, none⟩).2 = .execed ↔
      (⟨fun _ => none, none, none, none⟩ : ChildOracle).execErrno =
        none) :=
  (C4_child_order ⟨fun _ => none, none, none, none⟩ ⟨none⟩).2.1
    (fun _ _ => rfl) rfl rfl

/-- C10 (implicit): whenever `try_exec` returns an error, the child
writes exactly one 4-byte message — every byte a valid octet — followed
by `_exit(1)`; an error value carrying no raw OS error code is encoded
as the fixed fallback `EINVAL`, and one carrying code `c` is encoded as
`c` itself, so the parent always decodes an OS error code rather than
garbage. -/
theorem C10_einval_fallback (o : ChildOracle) (e : RErr) (c : Nat)
    (h : (try_exec o).2 = .failed e) :
    childAfterFork o =
      (try_exec o).1 ++ [.writeErr (encodeErr e), .exit 1] ∧
    (encodeErr e).length = 4 ∧
    (∀ b ∈ encodeErr e, b < 256) ∧
    (e.raw = none → encodeErr e = u32NeBytes EINVAL) ∧
    (e.raw = some c → encodeErr e = u32NeBytes c) := by
  refine ⟨?_, ?_, ?_, ?_, ?_⟩
  · simp only [childAfterFork, h]
  · simp [encodeErr, u32NeBytes]
  · intro b hb
    simp only [encodeErr, u32NeBytes, List.mem_cons, List.not_mem_nil,
      or_false] at hb
    rcases hb with hb | hb | hb | hb <;> subst hb <;> omega
  · intro hn
    simp [encodeErr, hn]
  · intro hs
    simp [encodeErr, hs]

/-- Witness for C10: a pre-exec callback failure whose error carries no
raw OS code is written as the 4-byte `EINVAL` message before
`_exit(1)`. -/
theorem C10_einval_fallback_witness :
    childAfterFork ⟨fun _ => none, none, some ⟨none⟩, none⟩ =
      (try_exec ⟨fun _ => none, none, some ⟨none⟩, none⟩).1 ++
        [.writeErr (encodeErr ⟨none⟩), .exit 1] ∧
    encodeErr ⟨none⟩ = u32NeBytes EINVAL :=
  ⟨(C10_einval_fallback ⟨fun _ => none, none, some ⟨none⟩, none⟩
      ⟨none⟩ 0 rfl).1,
   (C10_einval_fallback ⟨fun _ => none, none, some ⟨none⟩, none⟩
      ⟨none⟩ 0 rfl).2.2.2.1 rfl⟩

end DbusLaunch
